import Mathlib

/-!
Shallow embedding of the options-pricer repository (crates `options`,
`black-scholes`) and verification of its specification claims.

Floating-point `f64` arithmetic is idealised as real arithmetic; the
`statrs` standard-normal distribution primitives `Normal::new(0,1).pdf/cdf`
are modelled by the exact standard-normal density and cumulative
distribution function.
-/

open MeasureTheory Set

/-- Model of `statrs` standard normal `pdf`: `(1/sqrt(2*pi)) * exp (-x^2/2)`. -/
noncomputable def normalPdf (x : ℝ) : ℝ :=
  (Real.sqrt (2 * Real.pi))⁻¹ * Real.exp (-(x ^ 2) / 2)

/-- Model of `statrs` standard normal `cdf`: integral of the density over `(-infty, x]`. -/
noncomputable def normalCdf (x : ℝ) : ℝ :=
  ∫ t in Iic x, normalPdf t

/-- `struct Call` from `src/options/src/lib.rs`. -/
structure Call where
  strike_price : ℝ
  spot_price : ℝ
  volatility : ℝ
  risk_free_rate : ℝ
  time_to_maturity : ℝ
  dividend_yield : Option ℝ

/-- `struct Put` from `src/options/src/lib.rs`. -/
structure Put where
  strike_price : ℝ
  spot_price : ℝ
  volatility : ℝ
  risk_free_rate : ℝ
  time_to_maturity : ℝ
  dividend_yield : Option ℝ

/-- `enum Options` from `src/options/src/lib.rs`. -/
inductive Options where
  | Call (call : Call) : Options
  | Put (put : Put) : Options

/-- `d_plus` from `src/options/src/black_scholes.rs`. -/
noncomputable def d_plus (t r : ℝ) (q : Option ℝ) (sigma spot strike : ℝ) : ℝ :=
  let numerator := Real.log (spot / strike) + (r - q.getD 0 + 0.5 * sigma * sigma) * t
  let denominator := sigma * Real.sqrt t
  numerator / denominator

/-- `d_minus` from `src/options/src/black_scholes.rs`. -/
noncomputable def d_minus (t r : ℝ) (q : Option ℝ) (sigma spot strike : ℝ) : ℝ :=
  let numerator := Real.log (spot / strike) + (r - q.getD 0 - 0.5 * sigma * sigma) * t
  let denominator := sigma * Real.sqrt t
  numerator / denominator

/-- `black_scholes_price` from `src/options/src/black_scholes.rs` (dividend-aware). -/
noncomputable def black_scholes_price (option : Options) : ℝ :=
  match option with
  | Options.Call call =>
    let d1 := d_plus call.time_to_maturity call.risk_free_rate call.dividend_yield
      call.volatility call.spot_price call.strike_price
    let d2 := d_minus call.time_to_maturity call.risk_free_rate call.dividend_yield
      call.volatility call.spot_price call.strike_price
    let nd1 := normalCdf d1
    let nd2 := normalCdf d2
    call.spot_price * Real.exp (-(call.dividend_yield.getD 0) * call.time_to_maturity) * nd1
      - call.strike_price * Real.exp (-call.risk_free_rate * call.time_to_maturity) * nd2
  | Options.Put put =>
    let d1 := d_plus put.time_to_maturity put.risk_free_rate put.dividend_yield
      put.volatility put.spot_price put.strike_price
    let d2 := d_minus put.time_to_maturity put.risk_free_rate put.dividend_yield
      put.volatility put.spot_price put.strike_price
    let n_neg_d1 := normalCdf (-d1)
    let n_neg_d2 := normalCdf (-d2)
    put.strike_price * Real.exp (-put.risk_free_rate * put.time_to_maturity) * n_neg_d2
      - put.spot_price * Real.exp (-(put.dividend_yield.getD 0) * put.time_to_maturity)
        * n_neg_d1

/-- `Call::new` from `src/options/src/lib.rs`. -/
def Call.new (strike_price spot_price volatility risk_free_rate time_to_maturity : ℝ)
    (dividend_yield : Option ℝ) : Call :=
  { strike_price := strike_price, spot_price := spot_price, volatility := volatility,
    risk_free_rate := risk_free_rate, time_to_maturity := time_to_maturity,
    dividend_yield := dividend_yield }

/-- `Put::new` from `src/options/src/lib.rs`. -/
def Put.new (strike_price spot_price volatility risk_free_rate time_to_maturity : ℝ)
    (dividend_yield : Option ℝ) : Put :=
  { strike_price := strike_price, spot_price := spot_price, volatility := volatility,
    risk_free_rate := risk_free_rate, time_to_maturity := time_to_maturity,
    dividend_yield := dividend_yield }

/-- `Call::bs_pricing` from `src/options/src/lib.rs`. -/
noncomputable def Call.bs_pricing (c : Call) : ℝ :=
  black_scholes_price (Options.Call c)

/-- `Put::bs_pricing` from `src/options/src/lib.rs`. -/
noncomputable def Put.bs_pricing (p : Put) : ℝ :=
  black_scholes_price (Options.Put p)

/-- `Options::bs_pricing` from `src/options/src/lib.rs`. -/
noncomputable def Options.bs_pricing (o : Options) : ℝ :=
  black_scholes_price o

/-- The `dividend_correction` term `self.dividend_yield.map_or(1.0, |y| (-y*T).exp())`
appearing in every Greek of `src/options/src/lib.rs`. -/
noncomputable def dividend_correction (q : Option ℝ) (t : ℝ) : ℝ :=
  q.elim 1 fun yield_val => Real.exp (-yield_val * t)

/-- `Call::delta` from `src/options/src/lib.rs`. -/
noncomputable def Call.delta (c : Call) (imply_vol spot_price : ℝ) : ℝ :=
  let d1 := d_plus c.time_to_maturity c.risk_free_rate c.dividend_yield imply_vol
    spot_price c.strike_price
  normalCdf d1 * dividend_correction c.dividend_yield c.time_to_maturity

/-- `Call::theta` from `src/options/src/lib.rs`; note the dividend term uses the
stored `self.spot_price` while the other terms use the `spot_price` argument. -/
noncomputable def Call.theta (c : Call) (imply_vol spot_price : ℝ) : ℝ :=
  let d1 := d_plus c.time_to_maturity c.risk_free_rate c.dividend_yield imply_vol
    spot_price c.strike_price
  let d2 := d_minus c.time_to_maturity c.risk_free_rate c.dividend_yield imply_vol
    spot_price c.strike_price
  let n_d1 := normalPdf d1
  let n_d2 := normalCdf d2
  let corr := dividend_correction c.dividend_yield c.time_to_maturity
  let dividend_npv := c.dividend_yield.elim 0 fun yield_val =>
    yield_val * c.spot_price * corr * normalCdf d1;
  -(spot_price * n_d1 * imply_vol * corr) / (2 * Real.sqrt c.time_to_maturity)
    + dividend_npv
    - c.risk_free_rate * c.strike_price
      * Real.exp (-c.risk_free_rate * c.time_to_maturity) * n_d2

/-- `Call::gamma` from `src/options/src/lib.rs`. -/
noncomputable def Call.gamma (c : Call) (imply_vol spot_price : ℝ) : ℝ :=
  let d1 := d_plus c.time_to_maturity c.risk_free_rate c.dividend_yield imply_vol
    spot_price c.strike_price
  normalPdf d1 * dividend_correction c.dividend_yield c.time_to_maturity
    / (spot_price * imply_vol * Real.sqrt c.time_to_maturity)

/-- `Call::vega` from `src/options/src/lib.rs`; it takes no implied-volatility
argument and evaluates `d1` at the stored `self.volatility`. -/
noncomputable def Call.vega (c : Call) (spot_price : ℝ) : ℝ :=
  let d1 := d_plus c.time_to_maturity c.risk_free_rate c.dividend_yield c.volatility
    spot_price c.strike_price
  spot_price * normalPdf d1 * Real.sqrt c.time_to_maturity
    * dividend_correction c.dividend_yield c.time_to_maturity

/-- `Call::rho` from `src/options/src/lib.rs`; the `interest_rate` argument is used
both inside `d2` and in the discount factor. -/
noncomputable def Call.rho (c : Call) (imply_vol spot_price interest_rate : ℝ) : ℝ :=
  let d2 := d_minus c.time_to_maturity interest_rate c.dividend_yield imply_vol
    spot_price c.strike_price
  c.strike_price * c.time_to_maturity * normalCdf d2
    * Real.exp (-interest_rate * c.time_to_maturity)

/-- `Put::delta` from `src/options/src/lib.rs`. -/
noncomputable def Put.delta (p : Put) (imply_vol spot_price : ℝ) : ℝ :=
  let d1 := d_plus p.time_to_maturity p.risk_free_rate p.dividend_yield imply_vol
    spot_price p.strike_price
  (normalCdf d1 - 1) * dividend_correction p.dividend_yield p.time_to_maturity

/-- `Put::theta` from `src/options/src/lib.rs`; as for the call, the dividend term
uses the stored `self.spot_price`. -/
noncomputable def Put.theta (p : Put) (imply_vol spot_price : ℝ) : ℝ :=
  let d1 := d_plus p.time_to_maturity p.risk_free_rate p.dividend_yield imply_vol
    spot_price p.strike_price
  let d2 := d_minus p.time_to_maturity p.risk_free_rate p.dividend_yield imply_vol
    spot_price p.strike_price
  let n_d1 := normalPdf d1
  let n_d2 := normalCdf (-d2)
  let corr := dividend_correction p.dividend_yield p.time_to_maturity
  let dividend_npv := p.dividend_yield.elim 0 fun yield_val =>
    yield_val * p.spot_price * corr * normalCdf (-d1);
  -(spot_price * n_d1 * imply_vol * corr) / (2 * Real.sqrt p.time_to_maturity)
    - dividend_npv
    + p.risk_free_rate * p.strike_price
      * Real.exp (-p.risk_free_rate * p.time_to_maturity) * n_d2

/-- `Put::gamma` from `src/options/src/lib.rs`. -/
noncomputable def Put.gamma (p : Put) (imply_vol spot_price : ℝ) : ℝ :=
  let d1 := d_plus p.time_to_maturity p.risk_free_rate p.dividend_yield imply_vol
    spot_price p.strike_price
  normalPdf d1 * dividend_correction p.dividend_yield p.time_to_maturity
    / (spot_price * imply_vol * Real.sqrt p.time_to_maturity)

/-- `Put::vega` from `src/options/src/lib.rs`; like `Call::vega` it uses the stored
volatility. -/
noncomputable def Put.vega (p : Put) (spot_price : ℝ) : ℝ :=
  let d1 := d_plus p.time_to_maturity p.risk_free_rate p.dividend_yield p.volatility
    spot_price p.strike_price
  spot_price * normalPdf d1 * Real.sqrt p.time_to_maturity
    * dividend_correction p.dividend_yield p.time_to_maturity

/-- `Put::rho` from `src/options/src/lib.rs`. -/
noncomputable def Put.rho (p : Put) (imply_vol spot_price interest_rate : ℝ) : ℝ :=
  let d2 := d_minus p.time_to_maturity interest_rate p.dividend_yield imply_vol
    spot_price p.strike_price;
  -p.strike_price * p.time_to_maturity * normalCdf (-d2)
    * Real.exp (-interest_rate * p.time_to_maturity)

/-- `struct ConvertibleBond` from `src/options/src/exotics.rs`; `payment_frequency`
is `u32` in the source, modelled as `ℕ`. -/
structure ConvertibleBond where
  face_value : ℝ
  coupon_rate : ℝ
  maturity : ℝ
  payment_frequency : ℕ
  credit_spread : ℝ
  conversion_price : ℝ
  stock_price : ℝ
  volatility : ℝ
  time_to_maturity : ℝ
  risk_free_rate : ℝ
  dividend_yield : Option ℝ

/-- The `(self.maturity * self.payment_frequency as f64) as u32` cast in
`ConvertibleBond::npv`: a Rust float-to-`u32` cast truncates toward zero,
saturating at `0` and `u32::MAX`. -/
noncomputable def ConvertibleBond.periods (b : ConvertibleBond) : ℕ :=
  min (Nat.floor (b.maturity * (b.payment_frequency : ℝ))) 4294967295

/-- State of the `for` loop of `ConvertibleBond::npv` after a number of iterations:
first component the `npv` accumulator, second the `discounter`. -/
noncomputable def npv_loop (coupon_payment rate_step : ℝ) : ℕ → ℝ × ℝ
  | 0 => (0, 1)
  | n + 1 =>
    let prev := npv_loop coupon_payment rate_step n
    let discounter := prev.2 * (1 + rate_step)
    (prev.1 + coupon_payment / discounter, discounter)

/-- `ConvertibleBond::npv` from `src/options/src/exotics.rs`. -/
noncomputable def ConvertibleBond.npv (b : ConvertibleBond) : ℝ :=
  let coupon_payment := b.face_value * b.coupon_rate / (b.payment_frequency : ℝ)
  let final := npv_loop coupon_payment
    ((b.risk_free_rate + b.credit_spread) / (b.payment_frequency : ℝ)) b.periods
  final.1 + b.face_value / final.2

/-- `ConvertibleBond::conversion_option_price` from `src/options/src/exotics.rs`. -/
noncomputable def ConvertibleBond.conversion_option_price (b : ConvertibleBond) : ℝ :=
  let underlying_call : Call :=
    { strike_price := b.conversion_price, spot_price := b.stock_price,
      volatility := b.volatility, risk_free_rate := b.risk_free_rate,
      time_to_maturity := b.time_to_maturity, dividend_yield := b.dividend_yield }
  underlying_call.bs_pricing

/-- `ConvertibleBond::bs_pricing` from `src/options/src/exotics.rs`. -/
noncomputable def ConvertibleBond.bs_pricing (b : ConvertibleBond) : ℝ :=
  b.npv + b.face_value / b.conversion_price * b.conversion_option_price

namespace BlackScholesLib

/-- `d_plus` from `src/black-scholes/src/lib.rs` (no dividend parameter). -/
noncomputable def d_plus (t r sigma spot strike : ℝ) : ℝ :=
  let numerator := Real.log (spot / strike) + (r + 0.5 * sigma * sigma) * t
  let denominator := sigma * Real.sqrt t
  numerator / denominator

/-- `d_minus` from `src/black-scholes/src/lib.rs` (no dividend parameter). -/
noncomputable def d_minus (t r sigma spot strike : ℝ) : ℝ :=
  let numerator := Real.log (spot / strike) + (r - 0.5 * sigma * sigma) * t
  let denominator := sigma * Real.sqrt t
  numerator / denominator

/-- `black_scholes_price` from `src/black-scholes/src/lib.rs` (dividend-free). -/
noncomputable def black_scholes_price (option : Options) : ℝ :=
  match option with
  | Options.Call call =>
    let d1 := BlackScholesLib.d_plus call.time_to_maturity call.risk_free_rate
      call.volatility call.spot_price call.strike_price
    let d2 := BlackScholesLib.d_minus call.time_to_maturity call.risk_free_rate
      call.volatility call.spot_price call.strike_price
    let nd1 := normalCdf d1
    let nd2 := normalCdf d2
    call.spot_price * nd1
      - call.strike_price * Real.exp (-call.risk_free_rate * call.time_to_maturity) * nd2
  | Options.Put put =>
    let d1 := BlackScholesLib.d_plus put.time_to_maturity put.risk_free_rate
      put.volatility put.spot_price put.strike_price
    let d2 := BlackScholesLib.d_minus put.time_to_maturity put.risk_free_rate
      put.volatility put.spot_price put.strike_price
    let n_neg_d1 := normalCdf (-d1)
    let n_neg_d2 := normalCdf (-d2)
    put.strike_price * Real.exp (-put.risk_free_rate * put.time_to_maturity) * n_neg_d2
      - put.spot_price * n_neg_d1

end BlackScholesLib

/-! ### Properties of the standard normal distribution model -/

lemma normalPdf_pos (x : ℝ) : 0 < normalPdf x := by
  have h2pi : (0:ℝ) < 2 * Real.pi := by positivity
  exact mul_pos (inv_pos.2 (Real.sqrt_pos.2 h2pi)) (Real.exp_pos _)

lemma normalPdf_neg (x : ℝ) : normalPdf (-x) = normalPdf x := by
  simp [normalPdf, neg_sq]

lemma integrable_normalPdf : Integrable normalPdf := by
  have h : Integrable fun x : ℝ => Real.exp (-(1/2 : ℝ) * x ^ 2) :=
    integrable_exp_neg_mul_sq (by norm_num)
  have h2 := h.const_mul (Real.sqrt (2 * Real.pi))⁻¹
  refine h2.congr ?_
  filter_upwards with x
  unfold normalPdf
  ring_nf

lemma integral_normalPdf : ∫ x : ℝ, normalPdf x = 1 := by
  have hg : ∫ x : ℝ, Real.exp (-(1/2 : ℝ) * x ^ 2) = Real.sqrt (2 * Real.pi) := by
    have := integral_gaussian (1/2)
    rwa [show Real.pi / (1/2) = 2 * Real.pi by ring] at this
  have hsqrt : Real.sqrt (2 * Real.pi) ≠ 0 :=
    ne_of_gt (Real.sqrt_pos.2 (by positivity))
  calc ∫ x : ℝ, normalPdf x
      = ∫ x : ℝ, (Real.sqrt (2 * Real.pi))⁻¹ * Real.exp (-(1/2 : ℝ) * x ^ 2) := by
        congr 1
        funext x
        unfold normalPdf
        ring_nf
    _ = (Real.sqrt (2 * Real.pi))⁻¹ * ∫ x : ℝ, Real.exp (-(1/2 : ℝ) * x ^ 2) :=
        integral_mul_left _ _
    _ = 1 := by rw [hg, inv_mul_cancel₀ hsqrt]

lemma normalCdf_add_Ioi (x : ℝ) : normalCdf x + ∫ t in Ioi x, normalPdf t = 1 := by
  rw [normalCdf,
    intervalIntegral.integral_Iic_add_Ioi integrable_normalPdf.integrableOn
      integrable_normalPdf.integrableOn,
    integral_normalPdf]

lemma normalCdf_neg (x : ℝ) : normalCdf (-x) = 1 - normalCdf x := by
  have h1 : normalCdf (-x) = ∫ t in Ioi x, normalPdf t := by
    rw [normalCdf]
    calc ∫ t in Iic (-x), normalPdf t
        = ∫ t in Iic (-x), normalPdf (-t) := by
          congr 1
          funext t
          rw [normalPdf_neg]
      _ = ∫ t in Ioi (-(-x)), normalPdf t := integral_comp_neg_Iic (-x) normalPdf
      _ = ∫ t in Ioi x, normalPdf t := by rw [neg_neg]
  have h2 := normalCdf_add_Ioi x
  linarith

lemma normalCdf_pos (x : ℝ) : 0 < normalCdf x := by
  rw [normalCdf]
  rw [setIntegral_pos_iff_support_of_nonneg_ae
    (Filter.Eventually.of_forall fun t => (normalPdf_pos t).le)
    integrable_normalPdf.integrableOn]
  have hsupp : Function.support normalPdf = univ :=
    Set.eq_univ_iff_forall.2 fun t => Function.mem_support.2 (ne_of_gt (normalPdf_pos t))
  rw [hsupp, univ_inter, Real.volume_Iic]
  exact ENNReal.zero_lt_top

lemma normalCdf_lt_one (x : ℝ) : normalCdf x < 1 := by
  have h := normalCdf_add_Ioi x
  have hpos : 0 < ∫ t in Ioi x, normalPdf t := by
    rw [setIntegral_pos_iff_support_of_nonneg_ae
      (Filter.Eventually.of_forall fun t => (normalPdf_pos t).le)
      integrable_normalPdf.integrableOn]
    have hsupp : Function.support normalPdf = univ :=
      Set.eq_univ_iff_forall.2 fun t => Function.mem_support.2 (ne_of_gt (normalPdf_pos t))
    rw [hsupp, univ_inter, Real.volume_Ioi]
    exact ENNReal.zero_lt_top
  linarith

lemma normalCdf_zero : normalCdf 0 = 1/2 := by
  have h := normalCdf_neg 0
  rw [neg_zero] at h
  linarith

lemma normalCdf_mono : Monotone normalCdf := fun _ _ hab =>
  setIntegral_mono_set integrable_normalPdf.integrableOn
    (Filter.Eventually.of_forall fun t => (normalPdf_pos t).le)
    (HasSubset.Subset.eventuallyLE (Iic_subset_Iic.2 hab))

/-! ### Helper identities about the embedded pricing terms -/

lemma dividend_correction_eq (q : Option ℝ) (t : ℝ) :
    dividend_correction q t = Real.exp (-(q.getD 0) * t) := by
  cases q <;> simp [dividend_correction]

lemma dividend_correction_pos (q : Option ℝ) (t : ℝ) : 0 < dividend_correction q t := by
  rw [dividend_correction_eq]
  exact Real.exp_pos _

lemma dividend_correction_le_one (q : Option ℝ) (t : ℝ) (hq : 0 ≤ q.getD 0) (ht : 0 ≤ t) :
    dividend_correction q t ≤ 1 := by
  rw [dividend_correction_eq]
  have : -(q.getD 0) * t ≤ 0 := by
    have := mul_nonneg hq ht
    linarith
  exact Real.exp_le_one_iff.2 this

lemma d_minus_eq (t r : ℝ) (q : Option ℝ) (sigma spot strike : ℝ)
    (hsigma : sigma ≠ 0) (ht : 0 < t) :
    d_minus t r q sigma spot strike = d_plus t r q sigma spot strike - sigma * Real.sqrt t := by
  have hst : Real.sqrt t ≠ 0 := ne_of_gt (Real.sqrt_pos.2 ht)
  simp only [d_plus, d_minus]
  set s := Real.sqrt t with hs
  have hsq : s * s = t := Real.mul_self_sqrt ht.le
  rw [← hsq]
  field_simp
  ring

lemma d_plus_spec_form (t r : ℝ) (q : Option ℝ) (sigma spot strike : ℝ) :
    d_plus t r q sigma spot strike
      = (Real.log (spot / strike) + (r - q.getD 0 + sigma ^ 2 / 2) * t)
        / (sigma * Real.sqrt t) := by
  simp only [d_plus]
  ring_nf

/-- C1: for every option with positive strike, spot, volatility and time to maturity,
`black_scholes_price` returns `S·exp(-qT)·N(d1) - K·exp(-rT)·N(d2)` for a call and
`K·exp(-rT)·N(-d2) - S·exp(-qT)·N(-d1)` for a put, where
`d1 = (ln(S/K) + (r - q + sigma^2/2)T)/(sigma·sqrt T)`, `d2 = d1 - sigma·sqrt T`,
`N` is the standard normal CDF and `q` defaults to `0` when absent. -/
theorem black_scholes_price_formula
    (K S sigma r T : ℝ) (q : Option ℝ)
    (hK : 0 < K) (hS : 0 < S) (hsigma : 0 < sigma) (hT : 0 < T) :
    black_scholes_price (Options.Call (Call.new K S sigma r T q))
        = S * Real.exp (-(q.getD 0) * T)
            * normalCdf ((Real.log (S / K) + (r - q.getD 0 + sigma ^ 2 / 2) * T)
              / (sigma * Real.sqrt T))
          - K * Real.exp (-r * T)
            * normalCdf ((Real.log (S / K) + (r - q.getD 0 + sigma ^ 2 / 2) * T)
                / (sigma * Real.sqrt T) - sigma * Real.sqrt T)
      ∧ black_scholes_price (Options.Put (Put.new K S sigma r T q))
        = K * Real.exp (-r * T)
            * normalCdf (-((Real.log (S / K) + (r - q.getD 0 + sigma ^ 2 / 2) * T)
                / (sigma * Real.sqrt T) - sigma * Real.sqrt T))
          - S * Real.exp (-(q.getD 0) * T)
            * normalCdf (-((Real.log (S / K) + (r - q.getD 0 + sigma ^ 2 / 2) * T)
              / (sigma * Real.sqrt T))) := by
  have hd1 : d_plus T r q sigma S K
      = (Real.log (S / K) + (r - q.getD 0 + sigma ^ 2 / 2) * T) / (sigma * Real.sqrt T) :=
    d_plus_spec_form T r q sigma S K
  have hd2 := d_minus_eq T r q sigma S K (ne_of_gt hsigma) hT
  constructor
  · show black_scholes_price (Options.Call (Call.new K S sigma r T q)) = _
    simp only [black_scholes_price, Call.new]
    rw [hd2, hd1]
  · show black_scholes_price (Options.Put (Put.new K S sigma r T q)) = _
    simp only [black_scholes_price, Put.new]
    rw [hd2, hd1]

/-- Witness for C1 at `K = 100, S = 105, sigma = 0.2, r = 0.05, T = 1, q` absent. -/
theorem black_scholes_price_formula_witness :
    (0:ℝ) < 100 ∧
    black_scholes_price (Options.Call (Call.new 100 105 0.2 0.05 1 none))
        = 105 * Real.exp (-((Option.none (α := ℝ)).getD 0) * 1)
            * normalCdf ((Real.log (105 / 100)
                + (0.05 - (Option.none (α := ℝ)).getD 0 + 0.2 ^ 2 / 2) * 1)
              / (0.2 * Real.sqrt 1))
          - 100 * Real.exp (-0.05 * 1)
            * normalCdf ((Real.log (105 / 100)
                  + (0.05 - (Option.none (α := ℝ)).getD 0 + 0.2 ^ 2 / 2) * 1)
                / (0.2 * Real.sqrt 1) - 0.2 * Real.sqrt 1) :=
  ⟨by norm_num,
    (black_scholes_price_formula 100 105 0.2 0.05 1 none (by norm_num) (by norm_num)
      (by norm_num) (by norm_num)).1⟩

/-- C2: put-call parity: for every matched parameter set with positive strike, spot,
volatility and maturity, the call price minus the put price equals
`S·exp(-qT) - K·exp(-rT)`. -/
theorem put_call_parity
    (K S sigma r T : ℝ) (q : Option ℝ)
    (hK : 0 < K) (hS : 0 < S) (hsigma : 0 < sigma) (hT : 0 < T) :
    black_scholes_price (Options.Call (Call.new K S sigma r T q))
        - black_scholes_price (Options.Put (Put.new K S sigma r T q))
      = S * Real.exp (-(q.getD 0) * T) - K * Real.exp (-r * T) := by
  simp only [black_scholes_price, Call.new, Put.new]
  rw [normalCdf_neg, normalCdf_neg]
  ring

/-- Witness for C2 at `K = 100, S = 105, sigma = 0.2, r = 0.05, T = 1, q = 0.02`. -/
theorem put_call_parity_witness :
    (0:ℝ) < 100 ∧
    black_scholes_price (Options.Call (Call.new 100 105 0.2 0.05 1 (some 0.02)))
        - black_scholes_price (Options.Put (Put.new 100 105 0.2 0.05 1 (some 0.02)))
      = 105 * Real.exp (-((Option.some (0.02:ℝ)).getD 0) * 1) - 100 * Real.exp (-0.05 * 1) :=
  ⟨by norm_num,
    put_call_parity 100 105 0.2 0.05 1 (some 0.02) (by norm_num) (by norm_num)
      (by norm_num) (by norm_num)⟩

/-! ### The bond NPV loop -/

lemma npv_loop_snd (c p : ℝ) (n : ℕ) : (npv_loop c p n).2 = (1 + p) ^ n := by
  induction n with
  | zero => simp [npv_loop]
  | succ k ih =>
    simp only [npv_loop, ih]
    ring

lemma npv_loop_fst (c p : ℝ) (n : ℕ) :
    (npv_loop c p n).1 = ∑ k ∈ Finset.Icc 1 n, c / (1 + p) ^ k := by
  induction n with
  | zero => simp [npv_loop]
  | succ k ih =>
    rw [Finset.sum_Icc_succ_top (by omega : 1 ≤ k + 1)]
    simp only [npv_loop, ih, npv_loop_snd]
    rw [pow_succ]

/-- C3: the convertible bond bond-leg NPV equals
`sum_{k=1..n} c·(1+p)^(-k) + F·(1+p)^(-n)` with `n` the number of periods,
`c = face_value·coupon_rate/frequency` the per-period coupon and
`p = (risk_free_rate + credit_spread)/frequency` the per-period rate, discretely
compounded once per period. -/
theorem convertible_bond_npv_formula (b : ConvertibleBond) (n : ℕ)
    (hn : b.maturity * (b.payment_frequency : ℝ) = n) (hcap : n ≤ 4294967295) :
    b.npv = (∑ k ∈ Finset.Icc 1 n,
        b.face_value * b.coupon_rate / (b.payment_frequency : ℝ)
          / (1 + (b.risk_free_rate + b.credit_spread) / (b.payment_frequency : ℝ)) ^ k)
      + b.face_value
        / (1 + (b.risk_free_rate + b.credit_spread) / (b.payment_frequency : ℝ)) ^ n := by
  have hper : b.periods = n := by
    rw [ConvertibleBond.periods, hn, Nat.floor_natCast]
    exact min_eq_left hcap
  simp only [ConvertibleBond.npv, hper, npv_loop_fst, npv_loop_snd]

/-- The sample convertible bond of the spec (§8) and of the repository test. -/
def reference_bond : ConvertibleBond :=
  { face_value := 1000, coupon_rate := 0.05, maturity := 5, payment_frequency := 2,
    credit_spread := 0.02, conversion_price := 50, stock_price := 55, volatility := 0.2,
    time_to_maturity := 5, risk_free_rate := 0.03, dividend_yield := none }

/-- Witness for C3 at the reference bond, which has `n = 10` periods. -/
theorem convertible_bond_npv_formula_witness :
    reference_bond.maturity * (reference_bond.payment_frequency : ℝ) = (10 : ℕ) ∧
    reference_bond.npv = (∑ k ∈ Finset.Icc 1 10,
        reference_bond.face_value * reference_bond.coupon_rate
            / (reference_bond.payment_frequency : ℝ)
          / (1 + (reference_bond.risk_free_rate + reference_bond.credit_spread)
              / (reference_bond.payment_frequency : ℝ)) ^ k)
      + reference_bond.face_value
        / (1 + (reference_bond.risk_free_rate + reference_bond.credit_spread)
            / (reference_bond.payment_frequency : ℝ)) ^ 10 :=
  ⟨by norm_num [reference_bond],
    convertible_bond_npv_formula reference_bond 10 (by norm_num [reference_bond])
      (by norm_num)⟩

/-- C10: the number of discounting periods is the integer truncation of
`maturity × payment_frequency`, so replacing the maturity `t` by
`floor(t × payment_frequency)/payment_frequency` changes neither the NPV nor the
total convertible bond price. -/
theorem npv_periods_truncation (b : ConvertibleBond)
    (hb : b.maturity * (b.payment_frequency : ℝ) < 4294967296) :
    b.periods = Nat.floor (b.maturity * (b.payment_frequency : ℝ))
    ∧ ConvertibleBond.npv { b with maturity :=
          (Nat.floor (b.maturity * (b.payment_frequency : ℝ)) : ℝ)
            / (b.payment_frequency : ℝ) } = b.npv
    ∧ ConvertibleBond.bs_pricing { b with maturity :=
          (Nat.floor (b.maturity * (b.payment_frequency : ℝ)) : ℝ)
            / (b.payment_frequency : ℝ) } = b.bs_pricing := by
  have hfloor : b.periods = Nat.floor (b.maturity * (b.payment_frequency : ℝ)) := by
    rw [ConvertibleBond.periods]
    refine min_eq_left ?_
    rcases le_or_lt 0 (b.maturity * (b.payment_frequency : ℝ)) with h | h
    · have h2 : Nat.floor (b.maturity * (b.payment_frequency : ℝ)) < 4294967296 :=
        (Nat.floor_lt h).2 (by exact_mod_cast hb)
      omega
    · rw [Nat.floor_of_nonpos h.le]
      omega
  have hper : ConvertibleBond.periods { b with maturity :=
      (Nat.floor (b.maturity * (b.payment_frequency : ℝ)) : ℝ)
        / (b.payment_frequency : ℝ) } = b.periods := by
    simp only [ConvertibleBond.periods]
    congr 1
    rcases Nat.eq_zero_or_pos b.payment_frequency with hf | hf
    · simp [hf]
    · have hf' : (b.payment_frequency : ℝ) ≠ 0 := Nat.cast_ne_zero.2 (Nat.pos_iff_ne_zero.1 hf)
      rw [div_mul_cancel₀ _ hf', Nat.floor_natCast]
  have hnpv : ConvertibleBond.npv { b with maturity :=
      (Nat.floor (b.maturity * (b.payment_frequency : ℝ)) : ℝ)
        / (b.payment_frequency : ℝ) } = b.npv := by
    simp only [ConvertibleBond.npv, hper]
  refine ⟨hfloor, hnpv, ?_⟩
  simp only [ConvertibleBond.bs_pricing, hnpv, ConvertibleBond.conversion_option_price]

/-- Witness for C10 at the reference bond. -/
theorem npv_periods_truncation_witness :
    reference_bond.maturity * (reference_bond.payment_frequency : ℝ) < 4294967296 ∧
    ConvertibleBond.npv { reference_bond with maturity :=
        (Nat.floor (reference_bond.maturity * (reference_bond.payment_frequency : ℝ)) : ℝ)
          / (reference_bond.payment_frequency : ℝ) } = reference_bond.npv :=
  ⟨by norm_num [reference_bond],
    (npv_periods_truncation reference_bond (by norm_num [reference_bond])).2.1⟩

/-- C5 (amended): the code performs no input validation: the constructors accept and
store arbitrary field values, and the bond pricer evaluates its formula
unconditionally. -/
theorem no_validation :
    (∀ (K S sigma r T : ℝ) (q : Option ℝ),
      Call.new K S sigma r T q
        = { strike_price := K, spot_price := S, volatility := sigma, risk_free_rate := r,
            time_to_maturity := T, dividend_yield := q })
    ∧ (∀ (K S sigma r T : ℝ) (q : Option ℝ),
      Put.new K S sigma r T q
        = { strike_price := K, spot_price := S, volatility := sigma, risk_free_rate := r,
            time_to_maturity := T, dividend_yield := q })
    ∧ (∀ b : ConvertibleBond,
      b.bs_pricing = b.npv + b.face_value / b.conversion_price * b.conversion_option_price) :=
  ⟨fun _ _ _ _ _ _ => rfl, fun _ _ _ _ _ _ => rfl, fun _ => rfl⟩

/-- Counterexample to C5 as stated: a call constructed with the invalid strike `-1`
is accepted and stores the invalid value, and a bond with the invalid conversion
price `-1` still has its pricing formula evaluated (no error is signalled: the
operations are total functions into the reals). -/
theorem no_validation_counterexample :
    (Call.new (-1) 100 0.2 0.05 1 none).strike_price = -1
    ∧ ConvertibleBond.bs_pricing { reference_bond with conversion_price := -1 }
        = ConvertibleBond.npv { reference_bond with conversion_price := -1 }
          + 1000 / (-1)
            * ConvertibleBond.conversion_option_price
                { reference_bond with conversion_price := -1 } :=
  ⟨rfl, rfl⟩

/-- C9: on options whose dividend yield is absent, the dividend-free
`black_scholes_price` of the `black-scholes` crate agrees with the dividend-aware
one of the `options` crate. -/
theorem crates_agree_without_dividend :
    (∀ c : Call, c.dividend_yield = none →
      BlackScholesLib.black_scholes_price (Options.Call c)
        = black_scholes_price (Options.Call c))
    ∧ (∀ p : Put, p.dividend_yield = none →
      BlackScholesLib.black_scholes_price (Options.Put p)
        = black_scholes_price (Options.Put p)) := by
  constructor
  · intro c hq
    simp [BlackScholesLib.black_scholes_price, black_scholes_price,
      BlackScholesLib.d_plus, BlackScholesLib.d_minus, d_plus, d_minus, hq]
  · intro p hq
    simp [BlackScholesLib.black_scholes_price, black_scholes_price,
      BlackScholesLib.d_plus, BlackScholesLib.d_minus, d_plus, d_minus, hq]

/-- Witness for C9 at the sample call of the repository tests. -/
theorem crates_agree_without_dividend_witness :
    (Call.new 100 105 0.2 0.05 1 none).dividend_yield = none ∧
    BlackScholesLib.black_scholes_price (Options.Call (Call.new 100 105 0.2 0.05 1 none))
      = black_scholes_price (Options.Call (Call.new 100 105 0.2 0.05 1 none)) :=
  ⟨rfl, crates_agree_without_dividend.1 (Call.new 100 105 0.2 0.05 1 none) rfl⟩

/-- C8: for positive strike, spot, volatilities and time to maturity, gamma and vega
are strictly positive, and a call and a put with equal parameters have identical
gamma and identical vega. -/
theorem gamma_vega_positive_and_equal
    (K S0 sigma r T : ℝ) (q : Option ℝ) (v s : ℝ)
    (hK : 0 < K) (hs : 0 < s) (hv : 0 < v) (hsigma : 0 < sigma) (hT : 0 < T) :
    0 < Call.gamma (Call.new K S0 sigma r T q) v s
    ∧ 0 < Call.vega (Call.new K S0 sigma r T q) s
    ∧ Call.gamma (Call.new K S0 sigma r T q) v s = Put.gamma (Put.new K S0 sigma r T q) v s
    ∧ Call.vega (Call.new K S0 sigma r T q) s = Put.vega (Put.new K S0 sigma r T q) s := by
  have hsqT : 0 < Real.sqrt T := Real.sqrt_pos.2 hT
  refine ⟨?_, ?_, rfl, rfl⟩
  · exact div_pos (mul_pos (normalPdf_pos _) (dividend_correction_pos q T))
      (by positivity)
  · exact mul_pos (mul_pos (mul_pos hs (normalPdf_pos _)) hsqT)
      (dividend_correction_pos q T)

/-- Witness for C8 at the at-the-money sample contract of the repository tests. -/
theorem gamma_vega_positive_and_equal_witness :
    (0:ℝ) < 100 ∧
    0 < Call.gamma (Call.new 100 100 0.2 0.05 1 none) 0.2 100 ∧
    Call.vega (Call.new 100 100 0.2 0.05 1 none) 100
      = Put.vega (Put.new 100 100 0.2 0.05 1 none) 100 :=
  ⟨by norm_num,
    (gamma_vega_positive_and_equal 100 100 0.2 0.05 1 none 0.2 100 (by norm_num)
      (by norm_num) (by norm_num) (by norm_num) (by norm_num)).1,
    (gamma_vega_positive_and_equal 100 100 0.2 0.05 1 none 0.2 100 (by norm_num)
      (by norm_num) (by norm_num) (by norm_num) (by norm_num)).2.2.2⟩

/-- Counterexample to C7 as stated: the data model allows any real dividend yield,
and with the negative dividend yield `-10` the call delta
`N(d1)·exp(-qT) = N(0)·exp(10)` exceeds `1`, although the contract has positive
time to maturity and the caller-supplied volatility and spot are positive. -/
theorem call_delta_above_one_counterexample :
    1 < Call.delta (Call.new 1 1 0.2 (-10.02) 1 (some (-10))) 0.2 1 := by
  have hd1 : d_plus 1 (-10.02) (some (-10)) 0.2 1 1 = 0 := by
    simp only [d_plus]
    norm_num
  have hexp : (11:ℝ) ≤ Real.exp 10 := by
    have := Real.add_one_le_exp (10:ℝ)
    linarith
  simp only [Call.delta, Call.new, hd1, normalCdf_zero, dividend_correction, Option.elim]
  norm_num
  nlinarith

/-- C7 (amended): with a nonnegative (or absent) dividend yield, positive time to
maturity and positive caller-supplied volatility and spot, the call delta lies
strictly in `(0,1)`, the put delta strictly in `(-1,0)`, and when the effective
dividend yield is `0` the magnitudes of matched call and put deltas sum to `1`. -/
theorem delta_bounds_amended
    (K S0 sigma r T : ℝ) (q : Option ℝ) (v s : ℝ)
    (hT : 0 < T) (hv : 0 < v) (hs : 0 < s) (hq : 0 ≤ q.getD 0) :
    (0 < Call.delta (Call.new K S0 sigma r T q) v s
      ∧ Call.delta (Call.new K S0 sigma r T q) v s < 1)
    ∧ (-1 < Put.delta (Put.new K S0 sigma r T q) v s
      ∧ Put.delta (Put.new K S0 sigma r T q) v s < 0)
    ∧ (q.getD 0 = 0 →
      |Call.delta (Call.new K S0 sigma r T q) v s|
        + |Put.delta (Put.new K S0 sigma r T q) v s| = 1) := by
  simp only [Call.delta, Put.delta, Call.new, Put.new]
  set d1 := d_plus T r q v s K with hd1
  have hN0 := normalCdf_pos d1
  have hN1 := normalCdf_lt_one d1
  have hc0 := dividend_correction_pos q T
  have hc1 := dividend_correction_le_one q T hq hT.le
  refine ⟨⟨mul_pos hN0 hc0, ?_⟩, ⟨?_, ?_⟩, ?_⟩
  · nlinarith
  · nlinarith
  · exact mul_neg_of_neg_of_pos (by linarith) hc0
  · intro hq0
    have hcorr : dividend_correction q T = 1 := by
      rw [dividend_correction_eq, hq0]
      simp
    rw [hcorr, mul_one, mul_one, abs_of_pos hN0, abs_of_neg (by linarith : normalCdf d1 - 1 < 0)]
    ring

/-- Witness for C7 (amended) at the at-the-money dividend-free sample contract. -/
theorem delta_bounds_amended_witness :
    ((0:ℝ) < 1 ∧ (0:ℝ) ≤ (Option.none (α := ℝ)).getD 0) ∧
    (0 < Call.delta (Call.new 100 100 0.2 0.05 1 none) 0.2 100
      ∧ Call.delta (Call.new 100 100 0.2 0.05 1 none) 0.2 100 < 1)
    ∧ |Call.delta (Call.new 100 100 0.2 0.05 1 none) 0.2 100|
        + |Put.delta (Put.new 100 100 0.2 0.05 1 none) 0.2 100| = 1 :=
  ⟨⟨by norm_num, by norm_num⟩,
    (delta_bounds_amended 100 100 0.2 0.05 1 none 0.2 100 (by norm_num) (by norm_num)
      (by norm_num) (by norm_num)).1,
    (delta_bounds_amended 100 100 0.2 0.05 1 none 0.2 100 (by norm_num) (by norm_num)
      (by norm_num) (by norm_num)).2.2 rfl⟩

/-- `d1` as written in spec §4.2, with `q` the already-defaulted dividend yield. -/
noncomputable def spec_d1 (t r q sigma spot strike : ℝ) : ℝ :=
  (Real.log (spot / strike) + (r - q + sigma ^ 2 / 2) * t) / (sigma * Real.sqrt t)

/-- `d2 = d1 - sigma*sqrt t` as written in spec §4.2. -/
noncomputable def spec_d2 (t r q sigma spot strike : ℝ) : ℝ :=
  spec_d1 t r q sigma spot strike - sigma * Real.sqrt t

lemma d_plus_eq_spec_d1 (t r : ℝ) (q : Option ℝ) (sigma spot strike : ℝ) :
    d_plus t r q sigma spot strike = spec_d1 t r (q.getD 0) sigma spot strike := by
  simp only [d_plus, spec_d1]
  ring_nf

lemma d_minus_eq_spec_d2 (t r : ℝ) (q : Option ℝ) (sigma spot strike : ℝ)
    (hsigma : sigma ≠ 0) (ht : 0 < t) :
    d_minus t r q sigma spot strike = spec_d2 t r (q.getD 0) sigma spot strike := by
  rw [d_minus_eq t r q sigma spot strike hsigma ht, spec_d2, d_plus_eq_spec_d1]

lemma dividend_term_eq (q : Option ℝ) (a b c : ℝ) :
    (q.elim 0 fun yield_val => yield_val * a * b * c) = q.getD 0 * a * b * c := by
  cases q <;> simp

/-- Counterexample to C6 as stated: for a contract with stored spot `100` and
dividend yield `0.05`, evaluating theta at the caller-supplied spot `200` does not
give the spec formula with the caller-supplied spot substituted throughout, because
the code computes the dividend term from the stored spot. -/
theorem call_theta_spec_counterexample :
    Call.theta (Call.new 1 100 0.2 0 1 (some 0.05)) 0.2 200
      ≠ -(200 * normalPdf (spec_d1 1 0 0.05 0.2 200 1) * 0.2 * Real.exp (-(0.05) * 1))
            / (2 * Real.sqrt 1)
          + 0.05 * 200 * normalCdf (spec_d1 1 0 0.05 0.2 200 1) * Real.exp (-(0.05) * 1)
          - 0 * 1 * Real.exp (-(0:ℝ) * 1) * normalCdf (spec_d2 1 0 0.05 0.2 200 1) := by
  intro h
  have hplus : d_plus 1 0 (some 0.05) 0.2 200 1 = spec_d1 1 0 0.05 0.2 200 1 := by
    rw [d_plus_eq_spec_d1]
    norm_num
  have hcorr : dividend_correction (some 0.05) 1 = Real.exp (-(0.05) * 1) := rfl
  simp only [Call.theta, Call.new, hplus, hcorr, Option.elim] at h
  ring_nf at h
  nlinarith [mul_pos (normalCdf_pos (spec_d1 1 0 0.05 0.2 200 1))
    (Real.exp_pos (-(0.05) * 1)),
    mul_pos (normalCdf_pos (spec_d1 1 0 0.05 0.2 200 1)) (Real.exp_pos (-(1/20 : ℝ)))]

/-- C6 (amended): each Greek equals its spec §4.3 formula with the caller-supplied
implied volatility and spot substituted for `sigma` and `S` and the remaining
parameters taken from the contract, except that (a) the dividend term `qS·N(d1)·e^(-qT)`
of theta (call and put) uses the contract's stored spot price, (b) vega takes no
implied-volatility argument and evaluates `d1` at the contract's stored volatility,
and (c) rho uses its caller-supplied interest-rate argument in place of the stored
rate, in the discount factor and inside `d2`. -/
theorem greeks_formulas_amended :
    (∀ (K S0 sigma r T : ℝ) (q : Option ℝ) (v s rr : ℝ), 0 < T → 0 < v →
      (Call.delta (Call.new K S0 sigma r T q) v s
        = Real.exp (-(q.getD 0) * T) * normalCdf (spec_d1 T r (q.getD 0) v s K))
      ∧ (Call.gamma (Call.new K S0 sigma r T q) v s
        = Real.exp (-(q.getD 0) * T) * normalPdf (spec_d1 T r (q.getD 0) v s K)
            / (s * v * Real.sqrt T))
      ∧ (Call.vega (Call.new K S0 sigma r T q) s
        = s * normalPdf (spec_d1 T r (q.getD 0) sigma s K) * Real.sqrt T
            * Real.exp (-(q.getD 0) * T))
      ∧ (Call.theta (Call.new K S0 sigma r T q) v s
        = -(s * normalPdf (spec_d1 T r (q.getD 0) v s K) * v * Real.exp (-(q.getD 0) * T))
              / (2 * Real.sqrt T)
            + q.getD 0 * S0 * normalCdf (spec_d1 T r (q.getD 0) v s K)
              * Real.exp (-(q.getD 0) * T)
            - r * K * Real.exp (-r * T) * normalCdf (spec_d2 T r (q.getD 0) v s K))
      ∧ (Call.rho (Call.new K S0 sigma r T q) v s rr
        = K * T * Real.exp (-rr * T) * normalCdf (spec_d2 T rr (q.getD 0) v s K)))
    ∧ (∀ (K S0 sigma r T : ℝ) (q : Option ℝ) (v s rr : ℝ), 0 < T → 0 < v →
      (Put.delta (Put.new K S0 sigma r T q) v s
        = Real.exp (-(q.getD 0) * T) * (normalCdf (spec_d1 T r (q.getD 0) v s K) - 1))
      ∧ (Put.gamma (Put.new K S0 sigma r T q) v s
        = Real.exp (-(q.getD 0) * T) * normalPdf (spec_d1 T r (q.getD 0) v s K)
            / (s * v * Real.sqrt T))
      ∧ (Put.vega (Put.new K S0 sigma r T q) s
        = s * normalPdf (spec_d1 T r (q.getD 0) sigma s K) * Real.sqrt T
            * Real.exp (-(q.getD 0) * T))
      ∧ (Put.theta (Put.new K S0 sigma r T q) v s
        = -(s * normalPdf (spec_d1 T r (q.getD 0) v s K) * v * Real.exp (-(q.getD 0) * T))
              / (2 * Real.sqrt T)
            - q.getD 0 * S0 * normalCdf (-spec_d1 T r (q.getD 0) v s K)
              * Real.exp (-(q.getD 0) * T)
            + r * K * Real.exp (-r * T) * normalCdf (-spec_d2 T r (q.getD 0) v s K))
      ∧ (Put.rho (Put.new K S0 sigma r T q) v s rr
        = -(K * T * Real.exp (-rr * T) * normalCdf (-spec_d2 T rr (q.getD 0) v s K)))) := by
  constructor
  · intro K S0 sigma r T q v s rr hT hv
    refine ⟨?_, ?_, ?_, ?_, ?_⟩
    · simp only [Call.delta, Call.new, dividend_correction_eq, d_plus_eq_spec_d1]
      ring
    · simp only [Call.gamma, Call.new, dividend_correction_eq, d_plus_eq_spec_d1]
      ring
    · simp only [Call.vega, Call.new, dividend_correction_eq, d_plus_eq_spec_d1]
    · simp only [Call.theta, Call.new, dividend_term_eq, dividend_correction_eq,
        d_plus_eq_spec_d1]
      rw [d_minus_eq_spec_d2 T r q v s K (ne_of_gt hv) hT]
      ring
    · simp only [Call.rho, Call.new, dividend_correction_eq]
      rw [d_minus_eq_spec_d2 T rr q v s K (ne_of_gt hv) hT]
      ring
  · intro K S0 sigma r T q v s rr hT hv
    refine ⟨?_, ?_, ?_, ?_, ?_⟩
    · simp only [Put.delta, Put.new, dividend_correction_eq, d_plus_eq_spec_d1]
      ring
    · simp only [Put.gamma, Put.new, dividend_correction_eq, d_plus_eq_spec_d1]
      ring
    · simp only [Put.vega, Put.new, dividend_correction_eq, d_plus_eq_spec_d1]
    · simp only [Put.theta, Put.new, dividend_term_eq, dividend_correction_eq,
        d_plus_eq_spec_d1]
      rw [d_minus_eq_spec_d2 T r q v s K (ne_of_gt hv) hT]
      ring
    · simp only [Put.rho, Put.new, dividend_correction_eq]
      rw [d_minus_eq_spec_d2 T rr q v s K (ne_of_gt hv) hT]
      ring

/-- Witness for C6 (amended): the call-delta formula instance at the at-the-money
sample contract with dividend yield `0.03`. -/
theorem greeks_formulas_amended_witness :
    ((0:ℝ) < 1 ∧ (0:ℝ) < 0.2) ∧
    Call.delta (Call.new 100 100 0.2 0.05 1 (some 0.03)) 0.2 100
      = Real.exp (-((Option.some (0.03:ℝ)).getD 0) * 1)
          * normalCdf (spec_d1 1 0.05 ((Option.some (0.03:ℝ)).getD 0) 0.2 100 100) :=
  ⟨⟨by norm_num, by norm_num⟩,
    (greeks_formulas_amended.1 100 100 0.2 0.05 1 (some 0.03) 0.2 100 0.05 (by norm_num)
      (by norm_num)).1⟩

/-! ### Numeric certification of the standard normal CDF at rational points -/

lemma sqrt_two_pi_bounds :
    2.506628 ≤ Real.sqrt (2 * Real.pi) ∧ Real.sqrt (2 * Real.pi) ≤ 2.506629 := by
  constructor
  · rw [show (2.506628 : ℝ) = Real.sqrt (2.506628 ^ 2) from (Real.sqrt_sq (by norm_num)).symm]
    apply Real.sqrt_le_sqrt
    nlinarith [Real.pi_gt_3141592]
  · rw [show (2.506629 : ℝ) = Real.sqrt (2.506629 ^ 2) from (Real.sqrt_sq (by norm_num)).symm]
    apply Real.sqrt_le_sqrt
    nlinarith [Real.pi_lt_3141593]

lemma sqrt_five_bounds : 2.2360679 ≤ Real.sqrt 5 ∧ Real.sqrt 5 ≤ 2.2360680 := by
  constructor
  · rw [show (2.2360679 : ℝ) = Real.sqrt (2.2360679 ^ 2) from (Real.sqrt_sq (by norm_num)).symm]
    apply Real.sqrt_le_sqrt
    norm_num
  · rw [show (2.2360680 : ℝ) = Real.sqrt (2.2360680 ^ 2) from (Real.sqrt_sq (by norm_num)).symm]
    apply Real.sqrt_le_sqrt
    norm_num

lemma exp_neg_015_bounds : 0.860707 ≤ Real.exp (-0.15) ∧ Real.exp (-0.15) ≤ 0.8607095 := by
  have h := Real.exp_bound (x := -0.15) (abs_le.2 ⟨by norm_num, by norm_num⟩)
    (n := 5) (by norm_num)
  have hs : ∑ m ∈ Finset.range 5, (-0.15:ℝ) ^ m / m.factorial
      = 1 - 0.15 + 0.15 ^ 2 / 2 - 0.15 ^ 3 / 6 + 0.15 ^ 4 / 24 := by
    norm_num [Finset.sum_range_succ, Nat.factorial]
  have habs0 : |(-0.15:ℝ)| = 0.15 := by
    rw [abs_of_nonpos] <;> norm_num
  rw [hs, habs0, abs_le] at h
  norm_num [Nat.factorial] at h ⊢
  constructor <;> linarith [h.1, h.2]

lemma log_one_point_one_bounds : 0.095309 ≤ Real.log 1.1 ∧ Real.log 1.1 ≤ 0.095311 := by
  constructor
  · rw [Real.le_log_iff_exp_le (by norm_num : (0:ℝ) < 1.1)]
    have h := Real.exp_bound (x := 0.095309) (abs_le.2 ⟨by norm_num, by norm_num⟩)
      (n := 5) (by norm_num)
    have hs : ∑ m ∈ Finset.range 5, (0.095309:ℝ) ^ m / m.factorial
        = 1 + 0.095309 + 0.095309 ^ 2 / 2 + 0.095309 ^ 3 / 6 + 0.095309 ^ 4 / 24 := by
      norm_num [Finset.sum_range_succ, Nat.factorial]
    have habs0 : |(0.095309:ℝ)| = 0.095309 := abs_of_nonneg (by norm_num)
    rw [hs, habs0, abs_le] at h
    norm_num [Nat.factorial] at h ⊢
    linarith [h.1, h.2]
  · rw [Real.log_le_iff_le_exp (by norm_num : (0:ℝ) < 1.1)]
    have h := Real.sum_le_exp_of_nonneg (by norm_num : (0:ℝ) ≤ 0.095311) 5
    have hs : ∑ m ∈ Finset.range 5, (0.095311:ℝ) ^ m / m.factorial
        = 1 + 0.095311 + 0.095311 ^ 2 / 2 + 0.095311 ^ 3 / 6 + 0.095311 ^ 4 / 24 := by
      norm_num [Finset.sum_range_succ, Nat.factorial]
    rw [hs] at h
    norm_num at h ⊢
    linarith [h]

lemma integral_poly10 (a b c d e f x : ℝ) :
    ∫ t in (0:ℝ)..x, (a + b * t ^ 2 + c * t ^ 4 + d * t ^ 6 + e * t ^ 8 + f * t ^ 10)
      = a * x + b * x ^ 3 / 3 + c * x ^ 5 / 5 + d * x ^ 7 / 7 + e * x ^ 9 / 9
        + f * x ^ 11 / 11 := by
  have Ik : ∀ (r : ℝ) (k : ℕ), IntervalIntegrable (fun t : ℝ => r * t ^ k) volume 0 x :=
    fun r k => (Continuous.intervalIntegrable (by continuity) 0 x)
  have I0 : IntervalIntegrable (fun _ : ℝ => a) volume 0 x := intervalIntegrable_const
  rw [intervalIntegral.integral_add ((((I0.add (Ik b 2)).add (Ik c 4)).add (Ik d 6)).add (Ik e 8))
      (Ik f 10),
    intervalIntegral.integral_add (((I0.add (Ik b 2)).add (Ik c 4)).add (Ik d 6)) (Ik e 8),
    intervalIntegral.integral_add ((I0.add (Ik b 2)).add (Ik c 4)) (Ik d 6),
    intervalIntegral.integral_add (I0.add (Ik b 2)) (Ik c 4),
    intervalIntegral.integral_add I0 (Ik b 2),
    intervalIntegral.integral_const,
    intervalIntegral.integral_const_mul, intervalIntegral.integral_const_mul,
    intervalIntegral.integral_const_mul, intervalIntegral.integral_const_mul,
    intervalIntegral.integral_const_mul,
    integral_pow, integral_pow, integral_pow, integral_pow, integral_pow]
  simp only [smul_eq_mul]
  push_cast
  ring

lemma exp_neg_half_sq_taylor (t : ℝ) (h0 : 0 ≤ t) (h1 : t ≤ 1) :
    |Real.exp (-(t ^ 2) / 2) - (1 - t ^ 2 / 2 + t ^ 4 / 8 - t ^ 6 / 48 + t ^ 8 / 384)|
      ≤ t ^ 10 / 3200 := by
  have hx : |(-(t ^ 2) / 2 : ℝ)| ≤ 1 := by
    rw [abs_of_nonpos (by nlinarith)]
    nlinarith
  have h := Real.exp_bound hx (n := 5) (by norm_num)
  have hs : ∑ m ∈ Finset.range 5, ((-(t ^ 2) / 2 : ℝ)) ^ m / m.factorial
      = 1 - t ^ 2 / 2 + t ^ 4 / 8 - t ^ 6 / 48 + t ^ 8 / 384 := by
    norm_num [Finset.sum_range_succ, Nat.factorial]
    ring
  have habs0 : |(-(t ^ 2) / 2 : ℝ)| = t ^ 2 / 2 := by
    rw [abs_of_nonpos (by nlinarith)]
    ring
  rw [hs, habs0] at h
  calc |Real.exp (-(t ^ 2) / 2) - (1 - t ^ 2 / 2 + t ^ 4 / 8 - t ^ 6 / 48 + t ^ 8 / 384)|
      ≤ (t ^ 2 / 2) ^ 5 * ((5:ℕ).succ / ((Nat.factorial 5 : ℕ) * (5:ℕ))) := h
    _ = t ^ 10 / 3200 := by
        norm_num [Nat.factorial]
        ring

lemma normalCdf_repr (x : ℝ) :
    normalCdf x = 1 / 2
      + (Real.sqrt (2 * Real.pi))⁻¹ * ∫ t in (0:ℝ)..x, Real.exp (-(t ^ 2) / 2) := by
  have h := intervalIntegral.integral_Iic_sub_Iic (a := (0:ℝ)) (b := x) (μ := volume)
    (f := normalPdf) integrable_normalPdf.integrableOn integrable_normalPdf.integrableOn
  have h2 : ∫ t in (0:ℝ)..x, normalPdf t
      = (Real.sqrt (2 * Real.pi))⁻¹ * ∫ t in (0:ℝ)..x, Real.exp (-(t ^ 2) / 2) := by
    rw [← intervalIntegral.integral_const_mul]
    rfl
  have h0 : normalCdf 0 = 1 / 2 := normalCdf_zero
  rw [normalCdf] at h0 ⊢
  rw [← h2]
  linarith [h]

lemma intExp_lower (x : ℝ) (hx0 : 0 ≤ x) (hx1 : x ≤ 1) :
    x - x ^ 3 / 6 + x ^ 5 / 40 - x ^ 7 / 336 + x ^ 9 / 3456 - x ^ 11 / 35200
      ≤ ∫ t in (0:ℝ)..x, Real.exp (-(t ^ 2) / 2) := by
  have hIexp : IntervalIntegrable (fun t : ℝ => Real.exp (-(t ^ 2) / 2)) volume 0 x :=
    Continuous.intervalIntegrable (by continuity) 0 x
  have hIpoly : IntervalIntegrable
      (fun t : ℝ => 1 + (-1/2) * t ^ 2 + (1/8) * t ^ 4 + (-1/48) * t ^ 6 + (1/384) * t ^ 8
        + (-1/3200) * t ^ 10) volume 0 x :=
    Continuous.intervalIntegrable (by continuity) 0 x
  have key : (∫ t in (0:ℝ)..x, (1 + (-1/2) * t ^ 2 + (1/8) * t ^ 4 + (-1/48) * t ^ 6
        + (1/384) * t ^ 8 + (-1/3200) * t ^ 10))
      ≤ ∫ t in (0:ℝ)..x, Real.exp (-(t ^ 2) / 2) := by
    refine intervalIntegral.integral_mono_on hx0 hIpoly hIexp fun t ht => ?_
    have hb := exp_neg_half_sq_taylor t ht.1 (le_trans ht.2 hx1)
    have hlb := (abs_le.1 hb).1
    nlinarith [hlb]
  rw [integral_poly10] at key
  linarith [key]

lemma intExp_upper (x : ℝ) (hx0 : 0 ≤ x) (hx1 : x ≤ 1) :
    (∫ t in (0:ℝ)..x, Real.exp (-(t ^ 2) / 2))
      ≤ x - x ^ 3 / 6 + x ^ 5 / 40 - x ^ 7 / 336 + x ^ 9 / 3456 + x ^ 11 / 35200 := by
  have hIexp : IntervalIntegrable (fun t : ℝ => Real.exp (-(t ^ 2) / 2)) volume 0 x :=
    Continuous.intervalIntegrable (by continuity) 0 x
  have hIpoly : IntervalIntegrable
      (fun t : ℝ => 1 + (-1/2) * t ^ 2 + (1/8) * t ^ 4 + (-1/48) * t ^ 6 + (1/384) * t ^ 8
        + (1/3200) * t ^ 10) volume 0 x :=
    Continuous.intervalIntegrable (by continuity) 0 x
  have key : (∫ t in (0:ℝ)..x, Real.exp (-(t ^ 2) / 2))
      ≤ ∫ t in (0:ℝ)..x, (1 + (-1/2) * t ^ 2 + (1/8) * t ^ 4 + (-1/48) * t ^ 6
        + (1/384) * t ^ 8 + (1/3200) * t ^ 10) := by
    refine intervalIntegral.integral_mono_on hx0 hIexp hIpoly fun t ht => ?_
    have hb := exp_neg_half_sq_taylor t ht.1 (le_trans ht.2 hx1)
    have hub := (abs_le.1 hb).2
    nlinarith [hub]
  rw [integral_poly10] at key
  linarith [key]

lemma normalCdf_poly_lower (x : ℝ) (hx0 : 0 ≤ x) (hx1 : x ≤ 1) :
    1 / 2 + (x - x ^ 3 / 6 + x ^ 5 / 40 - x ^ 7 / 336 + x ^ 9 / 3456 - x ^ 11 / 35200)
        / 2.506629
      ≤ normalCdf x := by
  rw [normalCdf_repr, inv_mul_eq_div]
  have hs := sqrt_two_pi_bounds
  have hcpos : (0:ℝ) < Real.sqrt (2 * Real.pi) := lt_of_lt_of_le (by norm_num) hs.1
  have hIlo := intExp_lower x hx0 hx1
  have hI0 : 0 ≤ ∫ t in (0:ℝ)..x, Real.exp (-(t ^ 2) / 2) :=
    intervalIntegral.integral_nonneg hx0 fun u _ => (Real.exp_pos _).le
  have key := div_le_div hI0 hIlo hcpos hs.2
  linarith [key]

lemma normalCdf_poly_upper (x : ℝ) (hx0 : 0 ≤ x) (hx1 : x ≤ 1) :
    normalCdf x
      ≤ 1 / 2 + (x - x ^ 3 / 6 + x ^ 5 / 40 - x ^ 7 / 336 + x ^ 9 / 3456 + x ^ 11 / 35200)
          / 2.506628 := by
  rw [normalCdf_repr, inv_mul_eq_div]
  have hs := sqrt_two_pi_bounds
  have hcpos : (0:ℝ) < Real.sqrt (2 * Real.pi) := lt_of_lt_of_le (by norm_num) hs.1
  have hIhi := intExp_upper x hx0 hx1
  have hI0 : 0 ≤ ∫ t in (0:ℝ)..x, Real.exp (-(t ^ 2) / 2) :=
    intervalIntegral.integral_nonneg hx0 fun u _ => (Real.exp_pos _).le
  have hPhi0 : 0 ≤ x - x ^ 3 / 6 + x ^ 5 / 40 - x ^ 7 / 336 + x ^ 9 / 3456 + x ^ 11 / 35200 :=
    le_trans hI0 hIhi
  have key := div_le_div hPhi0 hIhi (by norm_num : (0:ℝ) < 2.506628) hs.1
  linarith [key]

/-! ### Numeric bounds for the reference convertible bond -/

lemma d1_ref_bounds :
    0.772134 ≤ d_plus 5 0.03 none 0.2 55 50 ∧ d_plus 5 0.03 none 0.2 55 50 ≤ 0.772140 := by
  have hl := log_one_point_one_bounds
  have hs5 := sqrt_five_bounds
  have hs5pos : (0:ℝ) < Real.sqrt 5 := lt_of_lt_of_le (by norm_num) hs5.1
  have hlog : Real.log ((55:ℝ) / 50) = Real.log 1.1 := by norm_num
  have hden : (0:ℝ) < 0.2 * Real.sqrt 5 := by positivity
  simp only [d_plus, Option.getD_none, hlog]
  constructor
  · rw [le_div_iff hden]
    nlinarith [hl.1, hl.2, hs5.1, hs5.2]
  · rw [div_le_iff hden]
    nlinarith [hl.1, hl.2, hs5.1, hs5.2]

lemma d2_ref_bounds :
    0.324920 ≤ d_minus 5 0.03 none 0.2 55 50 ∧ d_minus 5 0.03 none 0.2 55 50 ≤ 0.324927 := by
  rw [d_minus_eq 5 0.03 none 0.2 55 50 (by norm_num) (by norm_num)]
  have hd1 := d1_ref_bounds
  have hs5 := sqrt_five_bounds
  constructor <;> nlinarith [hd1.1, hd1.2, hs5.1, hs5.2]

lemma normalCdf_d1_ref_bounds :
    0.779982 ≤ normalCdf (d_plus 5 0.03 none 0.2 55 50)
    ∧ normalCdf (d_plus 5 0.03 none 0.2 55 50) ≤ 0.779986 := by
  have hd := d1_ref_bounds
  have hlo := normalCdf_poly_lower 0.772134 (by norm_num) (by norm_num)
  have hhi := normalCdf_poly_upper 0.772140 (by norm_num) (by norm_num)
  have m1 := normalCdf_mono hd.1
  have m2 := normalCdf_mono hd.2
  constructor
  · have hnum : (0.779982:ℝ) ≤ 1 / 2 + (0.772134 - 0.772134 ^ 3 / 6 + 0.772134 ^ 5 / 40
        - 0.772134 ^ 7 / 336 + 0.772134 ^ 9 / 3456 - 0.772134 ^ 11 / 35200) / 2.506629 := by
      norm_num
    linarith [hlo, m1]
  · have hnum : 1 / 2 + (0.772140 - 0.772140 ^ 3 / 6 + 0.772140 ^ 5 / 40
        - 0.772140 ^ 7 / 336 + 0.772140 ^ 9 / 3456 + 0.772140 ^ 11 / 35200) / 2.506628
        ≤ (0.779986:ℝ) := by
      norm_num
    linarith [hhi, m2]

lemma normalCdf_d2_ref_bounds :
    0.627379 ≤ normalCdf (d_minus 5 0.03 none 0.2 55 50)
    ∧ normalCdf (d_minus 5 0.03 none 0.2 55 50) ≤ 0.627382 := by
  have hd := d2_ref_bounds
  have hlo := normalCdf_poly_lower 0.324920 (by norm_num) (by norm_num)
  have hhi := normalCdf_poly_upper 0.324927 (by norm_num) (by norm_num)
  have m1 := normalCdf_mono hd.1
  have m2 := normalCdf_mono hd.2
  constructor
  · have hnum : (0.627379:ℝ) ≤ 1 / 2 + (0.324920 - 0.324920 ^ 3 / 6 + 0.324920 ^ 5 / 40
        - 0.324920 ^ 7 / 336 + 0.324920 ^ 9 / 3456 - 0.324920 ^ 11 / 35200) / 2.506629 := by
      norm_num
    linarith [hlo, m1]
  · have hnum : 1 / 2 + (0.324927 - 0.324927 ^ 3 / 6 + 0.324927 ^ 5 / 40
        - 0.324927 ^ 7 / 336 + 0.324927 ^ 9 / 3456 + 0.324927 ^ 11 / 35200) / 2.506628
        ≤ (0.627382:ℝ) := by
      norm_num
    linarith [hhi, m2]

lemma reference_bond_npv : reference_bond.npv = 1000 := by
  have hper : reference_bond.periods = 10 := by
    rw [ConvertibleBond.periods]
    norm_num [reference_bond]
  simp only [ConvertibleBond.npv, hper, npv_loop_fst, npv_loop_snd]
  rw [show (Finset.Icc 1 10 : Finset ℕ) = {1,2,3,4,5,6,7,8,9,10} by decide]
  norm_num [reference_bond, Finset.sum_insert, Finset.mem_insert]

lemma reference_bond_call_price : reference_bond.conversion_option_price
    = 55 * normalCdf (d_plus 5 0.03 none 0.2 55 50)
      - 50 * Real.exp (-0.15) * normalCdf (d_minus 5 0.03 none 0.2 55 50) := by
  simp only [ConvertibleBond.conversion_option_price, Call.bs_pricing, black_scholes_price,
    reference_bond]
  norm_num

/-- C4: the convertible bond total price is the bond NPV plus the conversion ratio
`face_value / conversion_price` times the Black-Scholes price of the synthetic call
with strike `conversion_price` and spot `stock_price`; at the reference inputs the
total price is within `0.1` of `1318`. -/
theorem convertible_bond_total_price :
    (∀ b : ConvertibleBond, 0 < b.conversion_price →
      b.bs_pricing = b.npv + b.face_value / b.conversion_price
        * black_scholes_price (Options.Call
            { strike_price := b.conversion_price, spot_price := b.stock_price,
              volatility := b.volatility, risk_free_rate := b.risk_free_rate,
              time_to_maturity := b.time_to_maturity, dividend_yield := b.dividend_yield }))
    ∧ |reference_bond.bs_pricing - 1318| < 0.1 := by
  constructor
  · intro b _
    rfl
  · have hnpv := reference_bond_npv
    have hcall := reference_bond_call_price
    have hN1 := normalCdf_d1_ref_bounds
    have hN2 := normalCdf_d2_ref_bounds
    have hE := exp_neg_015_bounds
    have hEN2ub : Real.exp (-0.15) * normalCdf (d_minus 5 0.03 none 0.2 55 50)
        ≤ 0.8607095 * 0.627382 :=
      mul_le_mul hE.2 hN2.2 (normalCdf_pos _).le (by norm_num)
    have hEN2lb : 0.860707 * 0.627379
        ≤ Real.exp (-0.15) * normalCdf (d_minus 5 0.03 none 0.2 55 50) :=
      mul_le_mul hE.1 hN2.1 (by norm_num) (Real.exp_pos _).le
    have hratio : reference_bond.face_value / reference_bond.conversion_price = 20 := by
      norm_num [reference_bond]
    rw [ConvertibleBond.bs_pricing, hnpv, hcall, hratio, abs_lt]
    constructor <;> nlinarith [hN1.1, hN1.2, hEN2lb, hEN2ub]

/-- Witness for C4 at the reference bond. -/
theorem convertible_bond_total_price_witness :
    0 < reference_bond.conversion_price ∧
    reference_bond.bs_pricing = reference_bond.npv
      + reference_bond.face_value / reference_bond.conversion_price
        * black_scholes_price (Options.Call
            { strike_price := reference_bond.conversion_price,
              spot_price := reference_bond.stock_price,
              volatility := reference_bond.volatility,
              risk_free_rate := reference_bond.risk_free_rate,
              time_to_maturity := reference_bond.time_to_maturity,
              dividend_yield := reference_bond.dividend_yield }) :=
  ⟨by norm_num [reference_bond],
    convertible_bond_total_price.1 reference_bond (by norm_num [reference_bond])⟩
